import Mathlib

/-!
Verification of the recipe-catalog HTTP API (`main.py`).

The embedding models each route handler and helper as a pure Lean function.
Python floats are modelled as rationals (`ℚ`); `round(x, 2)` is modelled by
`round2`. JSON bodies for the context mailbox are modelled by the `Json`
inductive together with Python truthiness (`truthyB`). Fallible handlers
return `Except Erro _`, where `Erro.statusCode` recovers the HTTP code.
-/

/-- An entry of a recipe's `Ingredientes` list: `{NomeIngrediente, Quantidade}`. -/
structure Ingrediente where
  NomeIngrediente : String
  Quantidade : ℚ
  deriving DecidableEq

/-- An entry of a recipe's `Macronutrientes` list: `{Tipo, Valor}`. -/
structure Macronutriente where
  Tipo : String
  Valor : ℚ
  deriving DecidableEq

/-- A recipe record as read from `receitas_completo.json`. `Tag` and
`CaloriasTotais` are optional keys (`r.get(...)` in the code). -/
structure Receita where
  IdReceita : Int
  NomeReceita : String
  Tag : Option String
  CaloriasTotais : Option ℚ
  Ingredientes : List Ingrediente
  Macronutrientes : List Macronutriente
  Restricoes : List String
  deriving DecidableEq

/-- Error kinds surfaced by the handlers. -/
inductive Erro where
  | notFound
  | badRequest
  deriving DecidableEq

/-- The HTTP status code attached to each error payload. -/
def Erro.statusCode : Erro → Nat
  | .notFound => 404
  | .badRequest => 400

/-- Python `round(x, 2)` modelled over ℚ: round to 2 decimal places. -/
def round2 (q : ℚ) : ℚ := ((round (100 * q) : ℤ) : ℚ) / 100

/-- Helper `buscar_receita_por_id`: linear scan for the first record with the given id. -/
def buscar_receita_por_id (receitas : List Receita) (receita_id : Int) : Option Receita :=
  receitas.find? (fun receita => receita.IdReceita == receita_id)

/-- Python `defaultdict(float)` accumulation `d[k] += v`: the first occurrence
of a key appends it at the end, later occurrences add into its value in place. -/
def dictAdd (d : List (String × ℚ)) (k : String) (v : ℚ) : List (String × ℚ) :=
  match d with
  | [] => [(k, v)]
  | (k1, v1) :: rest => if k1 = k then (k1, v1 + v) :: rest else (k1, v1) :: dictAdd rest k v

/-- The ingredient occurrences of a record list, in iteration order:
one `(NomeIngrediente, Quantidade)` pair per ingredient entry per record. -/
def ingOccs (lista_receitas : List Receita) : List (String × ℚ) :=
  lista_receitas.flatMap
    (fun receita => receita.Ingredientes.map (fun ing => (ing.NomeIngrediente, ing.Quantidade)))

/-- The macronutrient occurrences of a record list, in iteration order. -/
def macroOccs (lista_receitas : List Receita) : List (String × ℚ) :=
  lista_receitas.flatMap
    (fun receita => receita.Macronutrientes.map (fun mn => (mn.Tipo, mn.Valor)))

/-- Comparison used by Python `sorted` on dict items: keys are distinct, so
tuple order is order on the key. -/
def keyLe (a b : String × ℚ) : Prop := a.1 ≤ b.1

instance : DecidableRel keyLe := fun a b => inferInstanceAs (Decidable (a.1 ≤ b.1))

/-- Helper `somar_ingredientes`: accumulate quantities per ingredient name into a
dict, then emit `{NomeIngrediente, QuantidadeTotal}` entries sorted by name
with totals rounded to 2 decimals. -/
def somar_ingredientes (lista_receitas : List Receita) : List (String × ℚ) :=
  let ingredientes_somados := (ingOccs lista_receitas).foldl (fun d p => dictAdd d p.1 p.2) []
  (List.insertionSort keyLe ingredientes_somados).map (fun p => (p.1, round2 p.2))

/-- Output of `somar_macros`: total calories plus per-type macro totals. -/
structure MacrosOut where
  CaloriasTotais : ℚ
  Macronutrientes : List (String × ℚ)
  deriving DecidableEq

/-- Helper `somar_macros`: sum `CaloriasTotais` (defaulting a missing value to 0) and
accumulate macro values per type, rounding totals to 2 decimals. -/
def somar_macros (lista_receitas : List Receita) : MacrosOut :=
  let calorias_total := lista_receitas.foldl (fun c r => c + r.CaloriasTotais.getD 0) 0
  let macros_somados := (macroOccs lista_receitas).foldl (fun d p => dictAdd d p.1 p.2) []
  { CaloriasTotais := round2 calorias_total
    Macronutrientes :=
      (List.insertionSort keyLe macros_somados).map (fun p => (p.1, round2 p.2)) }

/-- Helper `obter_tags_unicas`: the set of tags (a missing `Tag` defaults to
`"Outros"`), returned sorted. -/
def obter_tags_unicas (receitas : List Receita) : List String :=
  List.insertionSort (· ≤ ·) ((receitas.map (fun r => r.Tag.getD "Outros")).dedup)

/-- Python `str.lower()`, modelled as character-wise lowercasing (ASCII is
what the catalog uses; `String.toLower` does the same but is not
structurally recursive). -/
def lowerStr (s : String) : String := String.mk (s.data.map Char.toLower)

/-- Helper `buscar_receitas_por_nome`: case-insensitive substring match on names. -/
def buscar_receitas_por_nome (receitas : List Receita) (termo : String) : List Receita :=
  receitas.filter
    (fun receita => decide ((lowerStr termo).data <:+: (lowerStr receita.NomeReceita).data))

/-- Handler `filtrar_por_tag` (GET `/receitas/tag/<tag>`): case-insensitive equality
on the record's tag, where a MISSING tag defaults to the empty string
(`r.get('Tag', '')` in the code). -/
def filtrar_por_tag (catalogo : List Receita) (tag : String) : List Receita :=
  catalogo.filter (fun r => lowerStr (r.Tag.getD "") == lowerStr tag)

/-- Response of GET `/receitas/buscar`. -/
structure BuscaOut where
  termo_busca : String
  total : Nat
  receitas : List Receita
  deriving DecidableEq

/-- Handler `buscar_por_nome` (GET `/receitas/buscar?nome=`): a missing `nome`
parameter defaults to `""`; an empty term is rejected with 400. -/
def buscar_por_nome (catalogo : List Receita) (nomeParam : Option String) :
    Except Erro BuscaOut :=
  let termo := nomeParam.getD ""
  if termo = "" then Except.error Erro.badRequest
  else
    Except.ok
      { termo_busca := termo
        total := (buscar_receitas_por_nome catalogo termo).length
        receitas := buscar_receitas_por_nome catalogo termo }

/-- Handler `listar_tags` (GET `/tags`): the sorted defaulted tag set, and per tag the
count of records whose RAW tag equals it (`r.get('Tag') == tag`: no
defaulting in the count). -/
def listar_tags (catalogo : List Receita) : List String × List (String × Nat) :=
  let tags := obter_tags_unicas catalogo
  (tags, tags.map (fun tag => (tag, catalogo.countP (fun r => r.Tag == some tag))))

/-- Response of POST `/receitas/ingredientes`. -/
structure AgregadoIngredientes where
  receitas_ids : List Int
  receitas_nomes : List String
  total_receitas : Nat
  ingredientes_somados : List (String × ℚ)
  deriving DecidableEq

/-- Handler `ingredientes_multiplas_receitas` (POST `/receitas/ingredientes` with an
`ids` list): resolve ids, drop unresolved ones, 404 if none remain, else
aggregate ingredients. -/
def ingredientes_multiplas_receitas (catalogo : List Receita) (ids : List Int) :
    Except Erro AgregadoIngredientes :=
  let receitas_encontradas := (ids.map (buscar_receita_por_id catalogo)).filterMap id
  if receitas_encontradas.isEmpty then Except.error Erro.notFound
  else
    Except.ok
      { receitas_ids := ids
        receitas_nomes := receitas_encontradas.map Receita.NomeReceita
        total_receitas := receitas_encontradas.length
        ingredientes_somados := somar_ingredientes receitas_encontradas }

/-- Response of POST `/receitas/macros`. -/
structure AgregadoMacros where
  receitas_ids : List Int
  receitas_nomes : List String
  total_receitas : Nat
  resultados : MacrosOut
  deriving DecidableEq

/-- Handler `macros_multiplas_receitas` (POST `/receitas/macros` with an `ids` list). -/
def macros_multiplas_receitas (catalogo : List Receita) (ids : List Int) :
    Except Erro AgregadoMacros :=
  let receitas_encontradas := (ids.map (buscar_receita_por_id catalogo)).filterMap id
  if receitas_encontradas.isEmpty then Except.error Erro.notFound
  else
    Except.ok
      { receitas_ids := ids
        receitas_nomes := receitas_encontradas.map Receita.NomeReceita
        total_receitas := receitas_encontradas.length
        resultados := somar_macros receitas_encontradas }

/-- The calories key used by the `/stats` extremes: `r.get('CaloriasTotais', 0)`. -/
def calKey (r : Receita) : ℚ := r.CaloriasTotais.getD 0

/-- Python `max(receitas, key=calKey, default=None)`: linear scan keeping the
current best, replacing it only on a strictly greater key (first maximum wins). -/
def maxByCalorias (receitas : List Receita) : Option Receita :=
  receitas.foldl
    (fun acc r =>
      match acc with
      | none => some r
      | some b => if calKey b < calKey r then some r else some b)
    none

/-- Python `min(receitas, key=calKey, default=None)`: first minimum wins. -/
def minByCalorias (receitas : List Receita) : Option Receita :=
  receitas.foldl
    (fun acc r =>
      match acc with
      | none => some r
      | some b => if calKey r < calKey b then some r else some b)
    none

/-- Response of GET `/stats`. -/
structure Estatisticas where
  total_receitas : Nat
  total_ingredientes_registros : Nat
  total_tags : Nat
  tags_disponiveis : List String
  receita_mais_calorica : Option Receita
  receita_menos_calorica : Option Receita
  deriving DecidableEq

/-- Handler `estatisticas` (GET `/stats`). -/
def estatisticas (catalogo : List Receita) : Estatisticas :=
  { total_receitas := catalogo.length
    total_ingredientes_registros := (catalogo.map (fun r => r.Ingredientes.length)).sum
    total_tags := (obter_tags_unicas catalogo).length
    tags_disponiveis := obter_tags_unicas catalogo
    receita_mais_calorica := maxByCalorias catalogo
    receita_menos_calorica := minByCalorias catalogo }

/-- JSON-like values, the bodies accepted by POST `/contexto/enviar`.
`request.get_json()` yielding Python `None` is modelled by `Json.null`. -/
inductive Json where
  | null
  | bool (b : Bool)
  | num (q : ℚ)
  | str (s : String)
  | arr (elems : List Json)
  | obj (fields : List (String × Json))

/-- Python truthiness of a JSON value: `None`, `False`, `0`, `""`, `[]` and
`{}` are falsy, everything else truthy (`if not data` in the code). -/
def truthyB : Json → Bool
  | .null => false
  | .bool b => b
  | .num q => q != 0
  | .str s => s != ""
  | .arr elems => !elems.isEmpty
  | .obj fields => !fields.isEmpty

/-- Handler `enviar_contexto` (POST `/contexto/enviar`): reject a falsy body with 400
leaving the slot untouched, otherwise overwrite the slot with the body. The
pair is (response, new slot state). -/
def enviar_contexto (contexto_atual : Option Json) (data : Json) :
    Except Erro Unit × Option Json :=
  if !truthyB data then (Except.error Erro.badRequest, contexto_atual)
  else (Except.ok (), some data)

/-- Handler `pegar_contexto` (GET `/contexto/pegar`): 404 on an empty slot, otherwise
return the held value and clear the slot. -/
def pegar_contexto (contexto_atual : Option Json) : Except Erro Json × Option Json :=
  match contexto_atual with
  | none => (Except.error Erro.notFound, none)
  | some ctx => (Except.ok ctx, none)

/-- An operation on the context mailbox. -/
inductive MailboxOp where
  | send (data : Json)
  | take

/-- The slot state after one mailbox operation. -/
def mailboxStep (st : Option Json) : MailboxOp → Option Json
  | .send data => (enviar_contexto st data).2
  | .take => (pegar_contexto st).2

/-! ### Association-list dictionary theory

`getV d k` sums the values attached to key `k`; on a dict with distinct keys
it is the stored value, on a raw occurrence list it is the grouped total. -/

/-- Sum of all values carried by key `k` in an association list. -/
def getV (d : List (String × ℚ)) (k : String) : ℚ :=
  ((d.filter (fun p => p.1 == k)).map Prod.snd).sum

/-- The keys of an association list, in order. -/
def keysOf (d : List (String × ℚ)) : List String := d.map Prod.fst

theorem getV_cons (p : String × ℚ) (d : List (String × ℚ)) (k : String) :
    getV (p :: d) k = (if p.1 = k then p.2 else 0) + getV d k := by
  by_cases h : p.1 = k <;> simp [getV, List.filter_cons, h]

theorem getV_append (d1 d2 : List (String × ℚ)) (k : String) :
    getV (d1 ++ d2) k = getV d1 k + getV d2 k := by
  simp [getV, List.filter_append]

theorem getV_eq_zero_of_not_mem {d : List (String × ℚ)} {k : String}
    (h : k ∉ keysOf d) : getV d k = 0 := by
  induction d with
  | nil => rfl
  | cons p rest ih =>
      simp only [keysOf, List.map_cons, List.mem_cons, not_or] at h
      rw [getV_cons, if_neg (fun hh => h.1 hh.symm), ih (by simpa [keysOf] using h.2)]
      ring

theorem dictAdd_cons_eq (k1 : String) (v1 : ℚ) (rest : List (String × ℚ)) (k : String)
    (v : ℚ) (h : k1 = k) : dictAdd ((k1, v1) :: rest) k v = (k1, v1 + v) :: rest := by
  simp [dictAdd, h]

theorem dictAdd_cons_ne (k1 : String) (v1 : ℚ) (rest : List (String × ℚ)) (k : String)
    (v : ℚ) (h : ¬ k1 = k) : dictAdd ((k1, v1) :: rest) k v = (k1, v1) :: dictAdd rest k v := by
  simp [dictAdd, h]

theorem mem_keysOf_dictAdd (d : List (String × ℚ)) (k : String) (v : ℚ) (k2 : String) :
    k2 ∈ keysOf (dictAdd d k v) ↔ k2 ∈ keysOf d ∨ k2 = k := by
  induction d with
  | nil => simp [dictAdd, keysOf]
  | cons p rest ih =>
      obtain ⟨k1, v1⟩ := p
      by_cases h : k1 = k
      · subst h
        rw [dictAdd_cons_eq _ _ _ _ _ rfl]
        simp only [keysOf, List.map_cons, List.mem_cons]
        tauto
      · rw [dictAdd_cons_ne _ _ _ _ _ h]
        simp only [keysOf, List.map_cons, List.mem_cons] at ih ⊢
        rw [ih]
        tauto

theorem nodup_keysOf_dictAdd {d : List (String × ℚ)} (k : String) (v : ℚ)
    (h : (keysOf d).Nodup) : (keysOf (dictAdd d k v)).Nodup := by
  induction d with
  | nil => simp [dictAdd, keysOf]
  | cons p rest ih =>
      obtain ⟨k1, v1⟩ := p
      simp only [keysOf, List.map_cons, List.nodup_cons] at h
      obtain ⟨h1, h2⟩ := h
      by_cases hk : k1 = k
      · subst hk
        rw [dictAdd_cons_eq _ _ _ _ _ rfl]
        simp only [keysOf, List.map_cons, List.nodup_cons]
        exact ⟨by simpa [keysOf] using h1, by simpa [keysOf] using h2⟩
      · rw [dictAdd_cons_ne _ _ _ _ _ hk]
        simp only [keysOf, List.map_cons, List.nodup_cons]
        refine ⟨?_, by simpa [keysOf] using ih (by simpa [keysOf] using h2)⟩
        intro hmem
        rcases (mem_keysOf_dictAdd rest k v k1).1 (by simpa [keysOf] using hmem) with hh | hh
        · exact h1 (by simpa [keysOf] using hh)
        · exact hk hh

theorem getV_dictAdd (d : List (String × ℚ)) (k : String) (v : ℚ) (k2 : String) :
    getV (dictAdd d k v) k2 = getV d k2 + (if k = k2 then v else 0) := by
  induction d with
  | nil => by_cases h : k = k2 <;> simp [dictAdd, getV, h]
  | cons p rest ih =>
      obtain ⟨k1, v1⟩ := p
      by_cases h : k1 = k
      · subst h
        rw [dictAdd_cons_eq _ _ _ _ _ rfl, getV_cons, getV_cons]
        by_cases h2 : k1 = k2 <;> simp [h2] <;> try ring
      · rw [dictAdd_cons_ne _ _ _ _ _ h, getV_cons, getV_cons, ih]
        ring

theorem getV_foldl_dictAdd (occs : List (String × ℚ)) :
    ∀ (d0 : List (String × ℚ)) (k : String),
      getV (occs.foldl (fun d p => dictAdd d p.1 p.2) d0) k = getV d0 k + getV occs k := by
  induction occs with
  | nil => intro d0 k; simp [getV]
  | cons p rest ih =>
      intro d0 k
      rw [List.foldl_cons, ih, getV_dictAdd, getV_cons]
      ring

theorem mem_keysOf_foldl_dictAdd (occs : List (String × ℚ)) :
    ∀ (d0 : List (String × ℚ)) (k : String),
      k ∈ keysOf (occs.foldl (fun d p => dictAdd d p.1 p.2) d0) ↔
        k ∈ keysOf d0 ∨ k ∈ keysOf occs := by
  induction occs with
  | nil => intro d0 k; simp [keysOf]
  | cons p rest ih =>
      intro d0 k
      rw [List.foldl_cons, ih, mem_keysOf_dictAdd]
      simp only [keysOf, List.map_cons, List.mem_cons]
      tauto

theorem nodup_keysOf_foldl_dictAdd (occs : List (String × ℚ)) :
    ∀ (d0 : List (String × ℚ)), (keysOf d0).Nodup →
      (keysOf (occs.foldl (fun d p => dictAdd d p.1 p.2) d0)).Nodup := by
  induction occs with
  | nil => intro d0 h; simpa using h
  | cons p rest ih => intro d0 h; exact ih _ (nodup_keysOf_dictAdd _ _ h)

theorem assoc_eq_map_keysOf : ∀ (d : List (String × ℚ)), (keysOf d).Nodup →
    d = (keysOf d).map (fun k => (k, getV d k)) := by
  intro d
  induction d with
  | nil => intro _; rfl
  | cons p rest ih =>
      intro h
      obtain ⟨k1, v1⟩ := p
      simp only [keysOf, List.map_cons, List.nodup_cons] at h
      obtain ⟨h1, h2⟩ := h
      have hv : getV ((k1, v1) :: rest) k1 = v1 := by
        rw [getV_cons, if_pos rfl,
          getV_eq_zero_of_not_mem (by simpa [keysOf] using h1)]
        ring
      have htail : (keysOf rest).map (fun k => (k, getV ((k1, v1) :: rest) k)) =
          (keysOf rest).map (fun k => (k, getV rest k)) := by
        refine List.map_congr_left (fun k hk => ?_)
        have hne : k1 ≠ k := fun hh => h1 (hh ▸ hk)
        rw [getV_cons, if_neg hne]
        simp
      calc (k1, v1) :: rest
          = (k1, getV ((k1, v1) :: rest) k1) :: rest := by rw [hv]
        _ = (k1, getV ((k1, v1) :: rest) k1) ::
              (keysOf rest).map (fun k => (k, getV rest k)) := by
            rw [← ih (by simpa [keysOf] using h2)]
        _ = (keysOf ((k1, v1) :: rest)).map (fun k => (k, getV ((k1, v1) :: rest) k)) := by
            rw [← htail]; simp [keysOf]

/-! ### Canonical form of the grouped-and-sorted aggregation pipeline -/

/-- The strict key order on dict entries. -/
def keyLt (a b : String × ℚ) : Prop := a.1 < b.1

instance : IsTotal (String × ℚ) keyLe := ⟨fun a b => le_total a.1 b.1⟩

instance : IsTrans (String × ℚ) keyLe := ⟨fun _ _ _ h1 h2 => le_trans h1 h2⟩

instance : IsAntisymm (String × ℚ) keyLt := ⟨fun _ _ h1 h2 => absurd h2 (lt_asymm h1)⟩

/-- The dict-accumulate-then-sort pipeline shared by `somar_ingredientes` and
`somar_macros` (before the output rounding). -/
def sortDict (occs : List (String × ℚ)) : List (String × ℚ) :=
  List.insertionSort keyLe (occs.foldl (fun d p => dictAdd d p.1 p.2) [])

/-- Canonical description of grouping: the distinct keys sorted, each paired
with its grouped total. -/
def canon (occs : List (String × ℚ)) : List (String × ℚ) :=
  (List.insertionSort (· ≤ ·) (keysOf occs).dedup).map (fun k => (k, getV occs k))

theorem sorted_keyLt_of_le_nodup {l : List (String × ℚ)}
    (hs : List.Pairwise keyLe l) (hn : (keysOf l).Nodup) : List.Pairwise keyLt l := by
  have hne : List.Pairwise (fun a b : String × ℚ => a.1 ≠ b.1) l := by
    have := hn
    rw [keysOf, List.Nodup, List.pairwise_map] at this
    exact this
  exact (hs.and hne).imp (fun h => lt_of_le_of_ne h.1 h.2)

theorem keysOf_canon (occs : List (String × ℚ)) :
    keysOf (canon occs) = List.insertionSort (· ≤ ·) (keysOf occs).dedup := by
  simp only [canon, keysOf, List.map_map]
  exact List.map_id _

theorem nodup_keysOf_canon (occs : List (String × ℚ)) : (keysOf (canon occs)).Nodup := by
  rw [keysOf_canon]
  exact ((List.perm_insertionSort _ _).nodup_iff).2 (List.nodup_dedup _)

theorem mem_keysOf_canon (occs : List (String × ℚ)) (k : String) :
    k ∈ keysOf (canon occs) ↔ k ∈ keysOf occs := by
  rw [keysOf_canon, List.mem_insertionSort, List.mem_dedup]

theorem canon_pairwise_keyLt (occs : List (String × ℚ)) :
    List.Pairwise keyLt (canon occs) := by
  have hsorted : List.Pairwise (fun a b : String => a ≤ b)
      (List.insertionSort (· ≤ ·) (keysOf occs).dedup) :=
    List.sorted_insertionSort _ _
  have hnodup : (List.insertionSort (· ≤ ·) (keysOf occs).dedup).Nodup :=
    ((List.perm_insertionSort _ _).nodup_iff).2 (List.nodup_dedup _)
  have hlt : List.Pairwise (fun a b : String => a < b)
      (List.insertionSort (· ≤ ·) (keysOf occs).dedup) :=
    (hsorted.and hnodup).imp (fun h => lt_of_le_of_ne h.1 h.2)
  rw [canon, List.pairwise_map]
  exact hlt.imp (fun h => h)

theorem getV_canon (occs : List (String × ℚ)) (k : String) :
    getV (canon occs) k = getV occs k := by
  by_cases hmem : k ∈ keysOf occs
  · have hna : (keysOf (canon occs)).Nodup := nodup_keysOf_canon occs
    have hx : canon occs = (keysOf (canon occs)).map (fun j => (j, getV (canon occs) j)) :=
      assoc_eq_map_keysOf _ hna
    -- compute directly from the definition of canon instead
    rw [canon, getV]
    have hsplit : ∀ (L : List String), L.Nodup → k ∈ L →
        ((L.map (fun j => (j, getV occs j))).filter (fun p => p.1 == k)).map Prod.snd
          = [getV occs k] := by
      intro L
      induction L with
      | nil => intro _ h; cases h
      | cons a rest ih =>
          intro hnd hk
          simp only [List.nodup_cons] at hnd
          rcases List.mem_cons.1 hk with rfl | hk2
          · have : ∀ p ∈ rest.map (fun j => (j, getV occs j)), (p.1 == k) = false := by
              intro p hp
              simp only [List.mem_map] at hp
              obtain ⟨j, hj, rfl⟩ := hp
              have hne : j ≠ k := fun hh => hnd.1 (by rw [← hh]; exact hj)
              simpa using hne
            simp only [List.map_cons, List.filter_cons, beq_self_eq_true, if_pos]
            rw [List.filter_eq_nil_iff.2 (by intro p hp; simpa using this p hp)]
            simp
          · have hne : ¬(a == k) = true := by
              simp only [beq_iff_eq]
              exact fun hh => hnd.1 (hh ▸ hk2)
            simp only [List.map_cons, List.filter_cons]
            rw [if_neg (by simpa using hne)]
            exact ih hnd.2 hk2
    have := hsplit (List.insertionSort (· ≤ ·) (keysOf occs).dedup)
      (((List.perm_insertionSort _ _).nodup_iff).2 (List.nodup_dedup _))
      (by rw [List.mem_insertionSort, List.mem_dedup]; exact hmem)
    rw [this]
    simp
  · rw [getV_eq_zero_of_not_mem (fun hh => hmem ((mem_keysOf_canon occs k).1 hh)),
      getV_eq_zero_of_not_mem hmem]

theorem sortDict_eq_canon (occs : List (String × ℚ)) : sortDict occs = canon occs := by
  set D := occs.foldl (fun d p => dictAdd d p.1 p.2) [] with hD
  have hnodupD : (keysOf D).Nodup := by
    rw [hD]; exact nodup_keysOf_foldl_dictAdd occs [] (by simp [keysOf])
  have hgetD : ∀ k, getV D k = getV occs k := by
    intro k; rw [hD, getV_foldl_dictAdd]; simp [getV]
  have hmemD : ∀ k, k ∈ keysOf D ↔ k ∈ keysOf occs := by
    intro k; rw [hD, mem_keysOf_foldl_dictAdd]; simp [keysOf]
  -- sortDict occs is a permutation of canon occs
  have hDmap : D = (keysOf D).map (fun k => (k, getV occs k)) := by
    conv_lhs => rw [assoc_eq_map_keysOf D hnodupD]
    exact List.map_congr_left (fun k _ => by rw [hgetD])
  have hkeysPerm : List.Perm (keysOf D) (List.insertionSort (· ≤ ·) (keysOf occs).dedup) := by
    refine (List.perm_ext_iff_of_nodup hnodupD
      (((List.perm_insertionSort _ _).nodup_iff).2 (List.nodup_dedup _))).2 ?_
    intro k
    rw [hmemD, List.mem_insertionSort, List.mem_dedup]
  have hperm : List.Perm (sortDict occs) (canon occs) := by
    refine (List.perm_insertionSort _ _).trans ?_
    rw [← hD, hDmap]
    exact hkeysPerm.map _
  have hs1 : List.Pairwise keyLt (sortDict occs) := by
    refine sorted_keyLt_of_le_nodup (List.sorted_insertionSort _ _) ?_
    have hp2 : List.Perm (keysOf (sortDict occs)) (keysOf D) :=
      (List.perm_insertionSort _ _).map _
    exact (hp2.nodup_iff).2 hnodupD
  exact List.eq_of_perm_of_sorted hperm hs1 (canon_pairwise_keyLt occs)

theorem somar_ingredientes_eq (rs : List Receita) :
    somar_ingredientes rs = (canon (ingOccs rs)).map (fun p => (p.1, round2 p.2)) := by
  rw [show somar_ingredientes rs
      = (sortDict (ingOccs rs)).map (fun p => (p.1, round2 p.2)) from rfl,
    sortDict_eq_canon]

theorem keysOf_append (u v : List (String × ℚ)) : keysOf (u ++ v) = keysOf u ++ keysOf v := by
  simp [keysOf]

theorem canon_congr {xs ys : List (String × ℚ)}
    (hmem : ∀ k, k ∈ keysOf xs ↔ k ∈ keysOf ys)
    (hget : ∀ k, getV xs k = getV ys k) : canon xs = canon ys := by
  have hnames : List.insertionSort (· ≤ ·) (keysOf xs).dedup
      = List.insertionSort (· ≤ ·) (keysOf ys).dedup := by
    refine List.eq_of_perm_of_sorted ?_ (List.sorted_insertionSort _ _)
      (List.sorted_insertionSort _ _)
    refine (List.perm_insertionSort _ _).trans
      (List.Perm.trans ?_ (List.perm_insertionSort _ _).symm)
    refine (List.perm_ext_iff_of_nodup (List.nodup_dedup _) (List.nodup_dedup _)).2 ?_
    intro k
    rw [List.mem_dedup, List.mem_dedup]
    exact hmem k
  have hfun : (fun k => (k, getV xs k)) = (fun k => (k, getV ys k)) :=
    funext (fun k => by rw [hget k])
  rw [canon, canon, hnames, hfun]

/-- C6: for every list of recipe records, `somar_ingredientes` groups every
ingredient occurrence by exact name, sums the quantities, rounds each total
to 2 decimal places and returns the entries sorted lexicographically by name
(strictly, as names are distinct after grouping); on the spec's example of
two records holding ingredient "Leite" with quantities 100 and 50 it yields
the single entry ("Leite", 150). -/
theorem somar_ingredientes_groups_sums_rounds_sorts (rs : List Receita) :
    List.Pairwise keyLt (somar_ingredientes rs) ∧
    (∀ nome t, (nome, t) ∈ somar_ingredientes rs ↔
      nome ∈ keysOf (ingOccs rs) ∧ t = round2 (getV (ingOccs rs) nome)) ∧
    somar_ingredientes
      [⟨1, "R1", some "Doce", none, [⟨"Leite", 100⟩], [], []⟩,
       ⟨2, "R2", some "Doce", none, [⟨"Leite", 50⟩], [], []⟩] = [("Leite", 150)] := by
  refine ⟨?_, ?_, ?exa⟩
  case exa =>
    norm_num [somar_ingredientes, ingOccs, dictAdd, List.insertionSort,
      List.orderedInsert, round2]
  · rw [somar_ingredientes_eq]
    exact List.Pairwise.map _ (fun a b h => h) (canon_pairwise_keyLt (ingOccs rs))
  · intro nome t
    rw [somar_ingredientes_eq, canon, List.map_map]
    constructor
    · intro hmem
      simp only [List.mem_map, Function.comp] at hmem
      obtain ⟨k, hk, hEq⟩ := hmem
      obtain ⟨h1, h2⟩ := Prod.mk.injEq .. ▸ hEq
      subst h1
      refine ⟨?_, h2.symm⟩
      rw [List.mem_insertionSort, List.mem_dedup] at hk
      exact hk
    · rintro ⟨hmem, rfl⟩
      simp only [List.mem_map, Function.comp]
      exact ⟨nome, by rw [List.mem_insertionSort, List.mem_dedup]; exact hmem, rfl⟩

/-- Merging two per-name total lists, by the same group-by-name-and-sum
pipeline the aggregation itself uses. -/
def mergeTotals (xs ys : List (String × ℚ)) : List (String × ℚ) := sortDict (xs ++ ys)

/-- Variant of `somar_ingredientes` without its final rounding of each total to 2
decimals: the dict accumulation and sort only ("up to rounding"). -/
def somar_ingredientes_raw (rs : List Receita) : List (String × ℚ) := sortDict (ingOccs rs)

theorem ingOccs_append (xs ys : List Receita) :
    ingOccs (xs ++ ys) = ingOccs xs ++ ingOccs ys := by
  simp [ingOccs]

/-- C7: `somar_ingredientes` is commutative over the input record set, and —
up to the rounding applied at output — associative: aggregating `A ++ B` and
`C` separately and merging the per-name totals equals aggregating
`A ++ B ++ C` directly. -/
theorem somar_ingredientes_comm_assoc (A B C : List Receita) :
    somar_ingredientes (A ++ B) = somar_ingredientes (B ++ A) ∧
    mergeTotals (somar_ingredientes_raw (A ++ B)) (somar_ingredientes_raw C)
      = somar_ingredientes_raw (A ++ B ++ C) ∧
    somar_ingredientes (A ++ B ++ C)
      = (somar_ingredientes_raw (A ++ B ++ C)).map (fun p => (p.1, round2 p.2)) := by
  refine ⟨?_, ?_, rfl⟩
  · rw [somar_ingredientes_eq, somar_ingredientes_eq]
    have hc : canon (ingOccs (A ++ B)) = canon (ingOccs (B ++ A)) := by
      refine canon_congr ?_ ?_
      · intro k
        rw [ingOccs_append, ingOccs_append, keysOf_append, keysOf_append,
          List.mem_append, List.mem_append]
        tauto
      · intro k
        rw [ingOccs_append, ingOccs_append, getV_append, getV_append]
        ring
    rw [hc]
  · rw [show mergeTotals (somar_ingredientes_raw (A ++ B)) (somar_ingredientes_raw C)
        = sortDict (sortDict (ingOccs (A ++ B)) ++ sortDict (ingOccs C)) from rfl]
    rw [show somar_ingredientes_raw (A ++ B ++ C) = sortDict (ingOccs (A ++ B ++ C)) from rfl]
    rw [sortDict_eq_canon, sortDict_eq_canon, sortDict_eq_canon, sortDict_eq_canon]
    refine canon_congr ?_ ?_
    · intro k
      rw [ingOccs_append (A ++ B) C, keysOf_append, keysOf_append, List.mem_append,
        List.mem_append, mem_keysOf_canon, mem_keysOf_canon]
    · intro k
      rw [ingOccs_append (A ++ B) C, getV_append, getV_append, getV_canon, getV_canon]

/-- C1: from any mailbox state, sending a value X accepted by send (a truthy
body) succeeds; a take() then returns X and leaves the slot Empty, and a
second take() immediately after fails with NotFound (HTTP 404). -/
theorem mailbox_roundtrip (st : Option Json) (X : Json) (hX : truthyB X = true) :
    (enviar_contexto st X).1 = Except.ok () ∧
    (pegar_contexto (enviar_contexto st X).2).1 = Except.ok X ∧
    (pegar_contexto (enviar_contexto st X).2).2 = none ∧
    (pegar_contexto (pegar_contexto (enviar_contexto st X).2).2).1
      = Except.error Erro.notFound ∧
    Erro.notFound.statusCode = 404 := by
  simp [enviar_contexto, pegar_contexto, hX, Erro.statusCode]

theorem mailbox_roundtrip_witness :
    truthyB (Json.num 1) = true ∧
    (pegar_contexto (enviar_contexto none (Json.num 1)).2).1 = Except.ok (Json.num 1) :=
  ⟨rfl, (mailbox_roundtrip none (Json.num 1) rfl).2.1⟩

/-- C2 counterexample: send does NOT always succeed — a falsy body (here JSON
null) is rejected with BadRequest (400) and the slot is left unchanged, so
the unconditional-transition claim fails at value X = null. -/
theorem mailbox_send_not_always_succeeds :
    (enviar_contexto none Json.null).1 = Except.error Erro.badRequest ∧
    (enviar_contexto none Json.null).2 = none ∧
    Erro.badRequest.statusCode = 400 :=
  ⟨rfl, rfl, rfl⟩

/-- C2 amended: send(value) succeeds exactly for truthy (accepted) values,
and for those it transitions the slot to Holding(value) regardless of prior
state; hence after send(X); send(Y) with Y accepted, take() returns Y only
and X is unrecoverable. -/
theorem mailbox_overwrite (st : Option Json) (X Y : Json) (hY : truthyB Y = true) :
    (∀ st2 : Option Json, (enviar_contexto st2 Y).1 = Except.ok () ∧
      (enviar_contexto st2 Y).2 = some Y) ∧
    (pegar_contexto (enviar_contexto (enviar_contexto st X).2 Y).2).1 = Except.ok Y ∧
    (pegar_contexto (enviar_contexto (enviar_contexto st X).2 Y).2).2 = none := by
  refine ⟨fun st2 => ?_, ?_, ?_⟩ <;> simp [enviar_contexto, pegar_contexto, hY]

theorem mailbox_overwrite_witness :
    (pegar_contexto (enviar_contexto
        (enviar_contexto none (Json.num 2)).2 (Json.num 3)).2).1
      = Except.ok (Json.num 3) :=
  (mailbox_overwrite none (Json.num 2) (Json.num 3) rfl).2.1

/-- The mailbox slot is empty or holds a truthy value. -/
def mailboxInv (st : Option Json) : Prop :=
  st = none ∨ ∃ v, st = some v ∧ truthyB v = true

theorem mailboxInv_step (st : Option Json) (op : MailboxOp) (h : mailboxInv st) :
    mailboxInv (mailboxStep st op) := by
  cases op with
  | send data =>
      by_cases hd : truthyB data
      · exact Or.inr ⟨data, by simp [mailboxStep, enviar_contexto, hd], hd⟩
      · simpa [mailboxStep, enviar_contexto, hd] using h
  | take => exact Or.inl (by cases st <;> simp [mailboxStep, pegar_contexto])

theorem mailboxInv_foldl (ops : List MailboxOp) :
    ∀ st, mailboxInv st → mailboxInv (ops.foldl mailboxStep st) := by
  induction ops with
  | nil => intro st h; exact h
  | cons op rest ih => intro st h; exact ih _ (mailboxInv_step st op h)

/-- C10: send rejects every falsy body with 400 leaving the slot unchanged,
so after any sequence of send/take operations the slot is empty or holds a
truthy value; consequently take's emptiness test (slot = none) is exact. -/
theorem mailbox_truthiness_invariant :
    (∀ (st : Option Json) (data : Json), (enviar_contexto st data).1 =
        (if truthyB data then Except.ok () else Except.error Erro.badRequest) ∧
      (enviar_contexto st data).2 = (if truthyB data then some data else st)) ∧
    (∀ ops : List MailboxOp, mailboxInv (ops.foldl mailboxStep none)) ∧
    (∀ st : Option Json, (pegar_contexto st).1 = Except.error Erro.notFound ↔ st = none) ∧
    Erro.badRequest.statusCode = 400 := by
  refine ⟨fun st data => ?_, fun ops => mailboxInv_foldl ops none (Or.inl rfl),
    fun st => ?_, rfl⟩
  · by_cases hd : truthyB data <;> simp [enviar_contexto, hd]
  · cases st <;> simp [pegar_contexto]

/-- C3: for aggregation requests carrying an ids list, unknown ids are
silently dropped without per-id error; the operation fails with NotFound
(404) iff no id resolves to a catalog record, and otherwise succeeds with
the aggregate of exactly the resolved records. -/
theorem agregacao_unknown_ids (catalogo : List Receita) (ids : List Int) :
    (((ids.map (buscar_receita_por_id catalogo)).filterMap id) = []
      ↔ ∀ rid ∈ ids, buscar_receita_por_id catalogo rid = none) ∧
    (ingredientes_multiplas_receitas catalogo ids = Except.error Erro.notFound
      ↔ ((ids.map (buscar_receita_por_id catalogo)).filterMap id) = []) ∧
    (macros_multiplas_receitas catalogo ids = Except.error Erro.notFound
      ↔ ((ids.map (buscar_receita_por_id catalogo)).filterMap id) = []) ∧
    (((ids.map (buscar_receita_por_id catalogo)).filterMap id) ≠ [] →
      ingredientes_multiplas_receitas catalogo ids = Except.ok
        { receitas_ids := ids
          receitas_nomes := ((ids.map (buscar_receita_por_id catalogo)).filterMap id).map
            Receita.NomeReceita
          total_receitas := ((ids.map (buscar_receita_por_id catalogo)).filterMap id).length
          ingredientes_somados :=
            somar_ingredientes ((ids.map (buscar_receita_por_id catalogo)).filterMap id) } ∧
      macros_multiplas_receitas catalogo ids = Except.ok
        { receitas_ids := ids
          receitas_nomes := ((ids.map (buscar_receita_por_id catalogo)).filterMap id).map
            Receita.NomeReceita
          total_receitas := ((ids.map (buscar_receita_por_id catalogo)).filterMap id).length
          resultados :=
            somar_macros ((ids.map (buscar_receita_por_id catalogo)).filterMap id) }) ∧
    Erro.notFound.statusCode = 404 := by
  refine ⟨?_, ?_, ?_, ?_, rfl⟩
  · simp [List.filterMap_eq_nil_iff]
  · by_cases h : (ids.map (buscar_receita_por_id catalogo)).filterMap id = [] <;>
      simp [ingredientes_multiplas_receitas, h]
  · by_cases h : (ids.map (buscar_receita_por_id catalogo)).filterMap id = [] <;>
      simp [macros_multiplas_receitas, h]
  · intro h
    have hex : ∃ x ∈ ids, ¬ buscar_receita_por_id catalogo x = none := by
      by_contra hc
      push_neg at hc
      refine h ?_
      simp only [List.filterMap_eq_nil_iff]
      intro o ho
      simp only [List.mem_map] at ho
      obtain ⟨rid, hrid, rfl⟩ := ho
      simpa using hc rid hrid
    constructor
    · simp [ingredientes_multiplas_receitas, hex]
    · simp [macros_multiplas_receitas, hex]

theorem agregacao_unknown_ids_witness :
    ingredientes_multiplas_receitas [] [5] = Except.error Erro.notFound :=
  (agregacao_unknown_ids [] [5]).2.1.mpr rfl

/-- A catalog record lacking its Tag key. -/
def receitaSemTag : Receita := ⟨1, "Bolo", none, none, [], [], []⟩

/-- C4 at the failing input: on a catalog whose single record has no Tag,
GET /tags lists the defaulted tag "Outros" but counts it as 0 (the count
compares the RAW tag, without defaulting), so the per-tag count misses the
defaulted record and the counts sum to 0, not to the catalog size 1. -/
theorem listar_tags_count_ignores_default :
    listar_tags [receitaSemTag] = (["Outros"], [("Outros", 0)]) ∧
    ((listar_tags [receitaSemTag]).2.map Prod.snd).sum = 0 ∧
    [receitaSemTag].length = 1 := by
  refine ⟨?_, ?_, rfl⟩ <;> decide

/-- C5 counterexample: a record lacking its tag is NOT returned by
byTag("Outros"), although after defaulting the missing tag to "Outros" it
would match; the handler defaults to "" here, not to "Outros". -/
theorem filtrar_por_tag_missing_tag :
    filtrar_por_tag [receitaSemTag] "Outros" = [] ∧
    lowerStr (receitaSemTag.Tag.getD "Outros") = lowerStr "Outros" := by
  constructor <;> decide

/-- C5 amended: byTag(tag) returns exactly the subsequence of catalog records
(in catalog order) whose tag — defaulting to the EMPTY STRING when absent —
equals the query tag case-insensitively; the result may be empty without
being an error (the handler has no error path). -/
theorem filtrar_por_tag_spec (catalogo : List Receita) (tag : String) :
    List.Sublist (filtrar_por_tag catalogo tag) catalogo ∧
    ∀ r, r ∈ filtrar_por_tag catalogo tag ↔
      r ∈ catalogo ∧ lowerStr (r.Tag.getD "") = lowerStr tag := by
  refine ⟨List.filter_sublist _, fun r => ?_⟩
  simp [filtrar_por_tag, List.mem_filter]

/-- C8: GET /receitas/buscar fails with BadRequest (400) when the nome
parameter is missing or empty — never returning the unfiltered catalog — and
otherwise returns exactly the records whose name contains the term as a
case-insensitive substring. -/
theorem buscar_por_nome_spec (catalogo : List Receita) (nomeParam : Option String) :
    ((nomeParam = none ∨ nomeParam = some "") →
      buscar_por_nome catalogo nomeParam = Except.error Erro.badRequest ∧
      Erro.badRequest.statusCode = 400) ∧
    (∀ termo, nomeParam = some termo → termo ≠ "" →
      ∃ out, buscar_por_nome catalogo nomeParam = Except.ok out ∧
        out.termo_busca = termo ∧
        List.Sublist out.receitas catalogo ∧
        (∀ r, r ∈ out.receitas ↔
          r ∈ catalogo ∧ (lowerStr termo).data <:+: (lowerStr r.NomeReceita).data) ∧
        out.total = out.receitas.length) := by
  constructor
  · rintro (rfl | rfl) <;> exact ⟨rfl, rfl⟩
  · rintro termo rfl hne
    refine ⟨{ termo_busca := termo
              total := (buscar_receitas_por_nome catalogo termo).length
              receitas := buscar_receitas_por_nome catalogo termo },
      ?_, rfl, List.filter_sublist _, fun r => ?_, rfl⟩
    · simp [buscar_por_nome, hne]
    · simp [buscar_receitas_por_nome, List.mem_filter]

theorem buscar_por_nome_witness :
    buscar_por_nome [] none = Except.error Erro.badRequest ∧
    Erro.badRequest.statusCode = 400 :=
  (buscar_por_nome_spec [] none).1 (Or.inl rfl)

/-- One step of the Python `max(..., key=k)` linear scan: replace the current
best only on a strictly greater key (so the first maximum wins). -/
def bestStep (key : Receita → ℚ) (acc : Option Receita) (x : Receita) : Option Receita :=
  match acc with
  | none => some x
  | some c => if key c < key x then some x else some c

/-- Python `max(receitas, key=key, default=None)`. -/
def bestFold (key : Receita → ℚ) (receitas : List Receita) : Option Receita :=
  receitas.foldl (bestStep key) none

theorem maxByCalorias_eq_bestFold (rs : List Receita) :
    maxByCalorias rs = bestFold calKey rs := rfl

theorem minByCalorias_eq_bestFold (rs : List Receita) :
    minByCalorias rs = bestFold (fun r => -calKey r) rs := by
  rw [minByCalorias, bestFold]
  suffices hsuf : ∀ (acc : Option Receita),
      rs.foldl (fun acc r =>
        match acc with
        | none => some r
        | some b => if calKey r < calKey b then some r else some b) acc
      = rs.foldl (bestStep (fun r => -calKey r)) acc from hsuf none
  induction rs with
  | nil => intro acc; rfl
  | cons x xs ih =>
      intro acc
      rw [List.foldl_cons, List.foldl_cons, ih]
      congr 1
      cases acc with
      | none => rfl
      | some b =>
          show (if calKey x < calKey b then some x else some b)
            = (if -calKey b < -calKey x then some x else some b)
          exact if_congr (Iff.symm neg_lt_neg_iff) rfl rfl

theorem bestFold_go (key : Receita → ℚ) :
    ∀ (xs : List Receita) (b : Receita),
      ∃ r, xs.foldl (bestStep key) (some b) = some r ∧
        key b ≤ key r ∧ (∀ x ∈ xs, key x ≤ key r) ∧
        (r = b ∨ (key b < key r ∧ ∃ l1 l2, xs = l1 ++ r :: l2 ∧ ∀ x ∈ l1, key x < key r)) := by
  intro xs
  induction xs with
  | nil => intro b; exact ⟨b, rfl, le_refl _, by simp, Or.inl rfl⟩
  | cons x rest ih =>
      intro b
      rw [List.foldl_cons]
      by_cases h : key b < key x
      · rw [show bestStep key (some b) x = some x from by simp [bestStep, h]]
        obtain ⟨r, hr, h1, h2, h3⟩ := ih x
        refine ⟨r, hr, le_of_lt (lt_of_lt_of_le h h1), ?_, ?_⟩
        · intro y hy
          rcases List.mem_cons.1 hy with rfl | hy2
          · exact h1
          · exact h2 y hy2
        · rcases h3 with rfl | ⟨hlt, l1, l2, heq, hmem⟩
          · exact Or.inr ⟨h, [], rest, rfl, by simp⟩
          · refine Or.inr ⟨lt_trans h hlt, x :: l1, l2, by rw [heq]; rfl, ?_⟩
            intro y hy
            rcases List.mem_cons.1 hy with rfl | hy2
            · exact hlt
            · exact hmem y hy2
      · rw [show bestStep key (some b) x = some b from by simp [bestStep, h]]
        obtain ⟨r, hr, h1, h2, h3⟩ := ih b
        refine ⟨r, hr, h1, ?_, ?_⟩
        · intro y hy
          rcases List.mem_cons.1 hy with rfl | hy2
          · exact le_trans (le_of_not_lt h) h1
          · exact h2 y hy2
        · rcases h3 with rfl | ⟨hlt, l1, l2, heq, hmem⟩
          · exact Or.inl rfl
          · refine Or.inr ⟨hlt, x :: l1, l2, by rw [heq]; rfl, ?_⟩
            intro y hy
            rcases List.mem_cons.1 hy with rfl | hy2
            · exact lt_of_le_of_lt (le_of_not_lt h) hlt
            · exact hmem y hy2

theorem bestFold_spec (key : Receita → ℚ) (x : Receita) (xs : List Receita) :
    ∃ r, bestFold key (x :: xs) = some r ∧
      (∀ s ∈ x :: xs, key s ≤ key r) ∧
      ∃ l1 l2, x :: xs = l1 ++ r :: l2 ∧ ∀ y ∈ l1, key y < key r := by
  obtain ⟨r, hr, hbe, hall, hpos⟩ := bestFold_go key xs x
  refine ⟨r, ?_, ?_, ?_⟩
  · rw [bestFold, List.foldl_cons]
    exact hr
  · intro s hs
    rcases List.mem_cons.1 hs with rfl | hs2
    · exact hbe
    · exact hall s hs2
  · rcases hpos with rfl | ⟨hblt, l1, l2, heq, hlt⟩
    · exact ⟨[], xs, rfl, by simp⟩
    · refine ⟨x :: l1, l2, by rw [heq]; rfl, ?_⟩
      intro y hy
      rcases List.mem_cons.1 hy with rfl | hy2
      · exact hblt
      · exact hlt y hy2

/-- C9: on a non-empty catalog, /stats returns as most-caloric the first
record attaining the maximum of `CaloriasTotais` (defaulted to 0 when
absent) and as least-caloric the first record attaining the minimum, as the
linear-scan folds with strict comparisons produce; on an empty catalog both
are absent. -/
theorem estatisticas_extremes (catalogo : List Receita) :
    (catalogo = [] → (estatisticas catalogo).receita_mais_calorica = none ∧
      (estatisticas catalogo).receita_menos_calorica = none) ∧
    (catalogo ≠ [] →
      (∃ rmax, (estatisticas catalogo).receita_mais_calorica = some rmax ∧
        (∀ s ∈ catalogo, calKey s ≤ calKey rmax) ∧
        ∃ l1 l2, catalogo = l1 ++ rmax :: l2 ∧ ∀ y ∈ l1, calKey y < calKey rmax) ∧
      (∃ rmin, (estatisticas catalogo).receita_menos_calorica = some rmin ∧
        (∀ s ∈ catalogo, calKey rmin ≤ calKey s) ∧
        ∃ l1 l2, catalogo = l1 ++ rmin :: l2 ∧ ∀ y ∈ l1, calKey rmin < calKey y)) := by
  constructor
  · rintro rfl
    exact ⟨rfl, rfl⟩
  · intro hne
    cases catalogo with
    | nil => exact absurd rfl hne
    | cons x xs =>
        constructor
        · obtain ⟨r, hr, hall, l1, l2, heq, hlt⟩ := bestFold_spec calKey x xs
          refine ⟨r, ?_, hall, l1, l2, heq, hlt⟩
          show maxByCalorias (x :: xs) = some r
          rw [maxByCalorias_eq_bestFold]
          exact hr
        · obtain ⟨r, hr, hall, l1, l2, heq, hlt⟩ :=
            bestFold_spec (fun t => -calKey t) x xs
          refine ⟨r, ?_, ?_, l1, l2, heq, ?_⟩
          · show minByCalorias (x :: xs) = some r
            rw [minByCalorias_eq_bestFold]
            exact hr
          · intro s hs
            have := hall s hs
            simpa using this
          · intro y hy
            have := hlt y hy
            simpa using this

/-- A record with the given id and calories, used to witness the stats claim. -/
def receitaCal (i : Int) (c : ℚ) : Receita := ⟨i, "R", none, some c, [], [], []⟩

theorem estatisticas_extremes_witness :
    ((estatisticas ([] : List Receita)).receita_mais_calorica = none ∧
      (estatisticas ([] : List Receita)).receita_menos_calorica = none) ∧
    ((∃ rmax, (estatisticas [receitaCal 1 5, receitaCal 2 9]).receita_mais_calorica
          = some rmax ∧
        (∀ s ∈ [receitaCal 1 5, receitaCal 2 9], calKey s ≤ calKey rmax) ∧
        ∃ l1 l2, [receitaCal 1 5, receitaCal 2 9] = l1 ++ rmax :: l2 ∧
          ∀ y ∈ l1, calKey y < calKey rmax) ∧
      (∃ rmin, (estatisticas [receitaCal 1 5, receitaCal 2 9]).receita_menos_calorica
          = some rmin ∧
        (∀ s ∈ [receitaCal 1 5, receitaCal 2 9], calKey rmin ≤ calKey s) ∧
        ∃ l1 l2, [receitaCal 1 5, receitaCal 2 9] = l1 ++ rmin :: l2 ∧
          ∀ y ∈ l1, calKey rmin < calKey y)) :=
  ⟨(estatisticas_extremes []).1 rfl,
   (estatisticas_extremes [receitaCal 1 5, receitaCal 2 9]).2 (by decide)⟩
